import Mathlib

/-!
Verification of the pelita turn scheduler (`pelita/game_master.py`).

This file shallowly embeds the `GameMaster` scheduler and the
`UniverseNoiser` fog-of-war engine from `pelita/game_master.py`.
The authoritative `CTFUniverse` (`pelita/datamodel.py`) and the maze graph
(`pelita/graph.py`) are not part of the analysed sources; following the
specification they are external collaborators, so their interface
(`legal_moves`, `move_bot`, `enemy_food`, `a_star`, `pos_within`) is
modelled from the spec as oracle data carried in a configuration record.

Wall-clock measurements (`time.time()`), the random stream (`random.choice`)
and the per-turn agent responses (`player_team._get_move`, which may raise
`PlayerTimeout`, `PlayerDisconnected`, or return an illegal move) are inputs
of a trace: each bot turn consumes one `TurnInput`.

Two ghost fields instrument the scheduler state so that behaviour is
observable in theorems: `appliedMoves` logs every `universe.move_bot`
application, and `observations` logs the `game_state` snapshot passed to the
viewers by every `update_viewers` call (`turnCount` counts `_play_bot`
executions).  Neither influences the control flow.
-/

namespace Pelita

/-- Maze positions, as in `datamodel` (grid coordinates). -/
abbrev Pos := Int × Int

/-- Moves are direction vectors, as in `datamodel`. -/
abbrev Move := Int × Int

/-- Modelled from the spec: `datamodel.stop`, the "stand still" move. -/
def stop : Move := (0, 0)

/-- `MAX_TIMEOUTS` from `game_master.py`. -/
def MAX_TIMEOUTS : Nat := 5

/-- Modelled from the spec: a `datamodel.Bot` — index, team, position and the
transient `noisy` annotation. -/
structure Bot where
  index : Nat
  team_index : Nat
  current_pos : Pos
  noisy : Bool
deriving DecidableEq, Repr

/-- Modelled from the spec: a `datamodel.Team` — index, name, score. -/
structure Team where
  index : Nat
  name : String
  score : Int
deriving DecidableEq, Repr

/-- Modelled from the spec: the mutable part of the authoritative
`CTFUniverse` the scheduler reads — the bot list, the team records and the
per-team count of remaining opposing food (`enemy_food_count`). -/
structure UnivDyn where
  bots : List Bot
  teams : List Team
  enemy_food : List Nat
deriving DecidableEq, Repr

/-- The event diff returned by `universe.move_bot` and merged into
`game_state` (`bot_moved` / `food_eaten` / `bot_destroyed`). -/
structure MoveDiff where
  bot_moved : List (Nat × Move)
  food_eaten : List Pos
  bot_destroyed : List Nat
deriving DecidableEq, Repr

/-- The `game_state` dict initialised in `GameMaster.__init__`.
`None` becomes `Option.none`; times are abstract tick counts. -/
structure GameState where
  bot_moved : List (Nat × Move)
  food_eaten : List Pos
  bot_destroyed : List Nat
  timeout_teams : List Nat
  bot_id : Option Nat
  round_index : Option Nat
  running_time : Nat
  finished : Bool
  team_time : List Nat
  team_wins : Option Nat
  game_draw : Option Bool
deriving DecidableEq, Repr

/-- The initial `game_state` dict of `GameMaster.__init__`. -/
def initial_game_state : GameState :=
  { bot_moved := []
    food_eaten := []
    bot_destroyed := []
    timeout_teams := [0, 0]
    bot_id := none
    round_index := none
    running_time := 0
    finished := false
    team_time := [0, 0]
    team_wins := none
    game_draw := none }

/-- Outcome of one `player_team._get_move` call: a returned move, a
`PlayerTimeout`, or a `PlayerDisconnected`.  (`datamodel.IllegalMoveException`
arises later, from `move_bot`, and is handled on the same path as
`PlayerTimeout`.) -/
inductive AgentResult where
  | success (move : Move)
  | timeout
  | disconnected
deriving DecidableEq, Repr

/-- Trace input for one bot turn: the agent call's outcome, the value drawn
by `random.choice` for a possible fallback move (used modulo the list
length), and the wall-clock ticks the turn took. -/
structure TurnInput where
  result : AgentResult
  choice : Nat
  elapsed : Nat
deriving DecidableEq, Repr

/-- Match configuration: `game_time` from `GameMaster.__init__`, plus the
Universe collaborator's interface modelled from the spec —
`legal_moves pos` is `universe.get_legal_moves(pos).keys()` (the maze is
static, so it depends only on the position), and `move_bot` applies a move
to the dynamic universe state, returning `none` for
`datamodel.IllegalMoveException`. -/
structure Config where
  game_time : Nat
  legal_moves : Pos → List Move
  move_bot : UnivDyn → Nat → Move → Option (UnivDyn × MoveDiff)

/-- The scheduler's state: the authoritative universe, the `game_state`
record, and ghost logs (`appliedMoves`: every `move_bot` application;
`observations`: every `update_viewers` snapshot; `turnCount`: number of
`_play_bot` executions). -/
structure SchedState where
  dyn : UnivDyn
  gs : GameState
  appliedMoves : List (Nat × Move)
  observations : List GameState
  turnCount : Nat
deriving DecidableEq, Repr

/-- The scheduler state right after `GameMaster.__init__`. -/
def init_state (d : UnivDyn) : SchedState :=
  { dyn := d
    gs := initial_game_state
    appliedMoves := []
    observations := []
    turnCount := 0 }

/-- `GameMaster.update_viewers`: every registered viewer's `observe` gets a
copy of the universe and a deep copy of `game_state`.  The ghost log records
one entry per call (each call notifies all viewers with the same snapshot). -/
def update_viewers (st : SchedState) : SchedState :=
  { st with observations := st.observations ++ [st.gs] }

/-- `GameMaster.prepare_next_round`: no-op when finished; otherwise clears
`bot_id` and advances `round_index` (`None → 0`; `+1` while below
`game_time`; else sets `finished`). -/
def prepare_next_round (cfg : Config) (st : SchedState) : SchedState :=
  if st.gs.finished then st
  else
    let gs := { st.gs with bot_id := none }
    match gs.round_index with
    | none => { st with gs := { gs with round_index := some 0 } }
    | some r =>
      if r < cfg.game_time then { st with gs := { gs with round_index := some (r + 1) } }
      else { st with gs := { gs with finished := true } }

/-- The Python 2 comparison `round_index >= game_time`, where
`round_index` may be `None` (and `None >= int` is `False` in Python 2). -/
def round_reached (r : Option Nat) (g : Nat) : Bool :=
  match r with
  | none => false
  | some n => g ≤ n

/-- `GameMaster.check_finished`: recomputes `finished` from scratch — set if
`team_wins` or `game_draw` is set; set (clearing `bot_id`) if
`round_index >= game_time`; otherwise set if some team's remaining enemy
food count is falsy (zero). -/
def check_finished (cfg : Config) (st : SchedState) : SchedState :=
  let gs1 := { st.gs with
               finished := st.gs.team_wins.isSome || st.gs.game_draw.isSome }
  if round_reached gs1.round_index cfg.game_time then
    { st with gs := { gs1 with finished := true, bot_id := none } }
  else
    let food_left := st.dyn.teams.map (fun t => st.dyn.enemy_food.getD t.index 0)
    if food_left.all (fun n => n != 0) then { st with gs := gs1 }
    else { st with gs := { gs1 with finished := true } }

/-- `GameMaster.check_winner`: returns unchanged unless `finished`; skipped
when `team_wins` or `game_draw` is already set; otherwise the strictly
higher score wins and equal scores set `game_draw`. -/
def check_winner (st : SchedState) : SchedState :=
  if !st.gs.finished then st
  else if st.gs.team_wins.isSome || st.gs.game_draw.isSome then st
  else
    let s0 := (st.dyn.teams.getD 0 ⟨0, "", 0⟩).score
    let s1 := (st.dyn.teams.getD 1 ⟨0, "", 0⟩).score
    if s1 < s0 then { st with gs := { st.gs with team_wins := some 0 } }
    else if s0 < s1 then { st with gs := { st.gs with team_wins := some 1 } }
    else { st with gs := { st.gs with game_draw := some true } }

/-- Merge a `move_bot` diff into `game_state`
(`for k, v in move_state.iteritems(): self.game_state[k] += v`). -/
def merge_diff (g : GameState) (d : MoveDiff) : GameState :=
  { g with
    bot_moved := g.bot_moved ++ d.bot_moved
    food_eaten := g.food_eaten ++ d.food_eaten
    bot_destroyed := g.bot_destroyed ++ d.bot_destroyed }

/-- `lst[i] += v` on a Python list of numbers. -/
def bump (l : List Nat) (i : Nat) (v : Nat) : List Nat :=
  l.set i (l.getD i 0 + v)

/-- The fallback move list of `_play_bot`'s recovery path:
`moves = legal.keys(); moves.remove(stop); if not moves: moves = [stop]`.
Python's `list.remove` raises `ValueError` when `stop` is absent, modelled
as `none`. -/
def fallback_moves (legal : List Move) : Option (List Move) :=
  if stop ∈ legal then
    let moves := legal.erase stop
    some (if moves.isEmpty then [stop] else moves)
  else none

/-- `random.choice(l)`, with the drawn randomness supplied as a number used
modulo the list length (the default is never used on the nonempty lists the
code builds). -/
def choice (l : List α) (k : Nat) (dflt : α) : α :=
  l.getD (k % l.length) dflt

/-- The `except (IllegalMoveException, PlayerTimeout)` block of
`GameMaster._play_bot`: increment `timeout_teams[team]`; on reaching
`MAX_TIMEOUTS` set `team_wins` to the other team; then (in either case)
build the fallback move list, pick one at random and apply it.  `none`
models an uncaught exception (the `ValueError` from `moves.remove(stop)`,
or an `IllegalMoveException` raised again inside the handler). -/
def timeout_recovery (cfg : Config) (st : SchedState) (bot : Bot)
    (k : Nat) : Option SchedState :=
  let tt := bump st.gs.timeout_teams bot.team_index 1
  let gs := { st.gs with timeout_teams := tt }
  let gs :=
    if tt.getD bot.team_index 0 = MAX_TIMEOUTS then
      { gs with team_wins := some (1 - bot.team_index) }
    else gs
  match fallback_moves (cfg.legal_moves bot.current_pos) with
  | none => none
  | some moves =>
    let mv := choice moves k stop
    match cfg.move_bot st.dyn bot.index mv with
    | some (d', diff) =>
      some { st with
             dyn := d'
             gs := merge_diff gs diff
             appliedMoves := st.appliedMoves ++ [(bot.index, mv)] }
    | none => none

/-- `GameMaster._play_bot` for the bot at list position `i`: record
`bot_id`, reset the per-turn event lists, then follow the agent outcome —
on success add the elapsed time to `team_time` and apply the move (an
illegal move joins the timeout path); on `PlayerTimeout` enter the recovery
path; on `PlayerDisconnected` set `team_wins` to the other team and apply
nothing.  `none` models an uncaught exception. -/
def _play_bot (cfg : Config) (st : SchedState) (i : Nat)
    (inp : TurnInput) : Option SchedState :=
  match st.dyn.bots.get? i with
  | none => some st
  | some bot =>
    let st := { st with
                gs := { st.gs with
                        bot_id := some bot.index
                        bot_moved := []
                        food_eaten := []
                        bot_destroyed := [] }
                turnCount := st.turnCount + 1 }
    match inp.result with
    | .disconnected =>
      some { st with gs := { st.gs with team_wins := some (1 - bot.team_index) } }
    | .timeout => timeout_recovery cfg st bot inp.choice
    | .success mv =>
      let st := { st with
                  gs := { st.gs with
                          team_time := bump st.gs.team_time bot.team_index inp.elapsed } }
      match cfg.move_bot st.dyn bot.index mv with
      | some (d', diff) =>
        some { st with
               dyn := d'
               gs := merge_diff st.gs diff
               appliedMoves := st.appliedMoves ++ [(bot.index, mv)] }
      | none => timeout_recovery cfg st bot inp.choice

/-- The bot loop of `GameMaster._play_bot_iterator`
(`for bot in self.universe.bots: _play_bot(bot); running_time += dt;
update_viewers(); yield`), over pairs of a bot list position and that
turn's trace input. -/
def play_bots_go (cfg : Config) : SchedState → List (Nat × TurnInput) → Option SchedState
  | st, [] => some st
  | st, (i, inp) :: rest => do
    let st' ← _play_bot cfg st i inp
    let st' := { st' with
                 gs := { st'.gs with running_time := st'.gs.running_time + inp.elapsed } }
    play_bots_go cfg (update_viewers st') rest

/-- The bot loop over every bot of the universe, in list order (the bot
list's length is fixed while positions mutate in place). -/
def play_bots (cfg : Config) (st : SchedState) (inputs : List TurnInput) :
    Option SchedState :=
  play_bots_go cfg st ((List.range st.dyn.bots.length).zip inputs)

/-- `GameMaster.play_round` driving `_play_bot_iterator` to completion:
early return when finished; `prepare_next_round`; when not finished after
that, `check_finished` then `check_winner`; if now finished, one
`update_viewers` and the `GameFinished` exit; otherwise the bot loop,
`check_finished`, `check_winner`, and a final `update_viewers` when the
round ended the match.  (`print_possible_winner` only writes to stdout.) -/
def play_round (cfg : Config) (st : SchedState) (inputs : List TurnInput) :
    Option SchedState :=
  if st.gs.finished then some st
  else
    let st := prepare_next_round cfg st
    let st := if st.gs.finished then st else check_winner (check_finished cfg st)
    if st.gs.finished then some (update_viewers st)
    else do
      let st ← play_bots cfg st inputs
      let st := check_winner (check_finished cfg st)
      some (if st.gs.finished then update_viewers st else st)

/-- The `while not finished: play_round()` loop of `GameMaster.play`,
with the trace's list of per-round inputs as fuel. -/
def play_loop (cfg : Config) : SchedState → List (List TurnInput) → Option SchedState
  | st, [] => some st
  | st, r :: rs =>
    if st.gs.finished then some st
    else do
      let st' ← play_round cfg st r
      play_loop cfg st' rs

/-- `GameMaster.play`: run rounds until finished (or the trace's fuel runs
out), then one final `update_viewers`.  (`set_initial` uses the separate
`set_initial` viewer channel and sends no `observe` call.) -/
def play (cfg : Config) (st : SchedState) (rounds : List (List TurnInput)) :
    Option SchedState := do
  let st' ← play_loop cfg st rounds
  some (update_viewers st')

/-- Modelled from the spec: the maze-graph collaborator
(`pelita/graph.py`) as used by `UniverseNoiser` — `a_star pos1 pos2`
returns a shortest path whose length is the distance compared against
`sight_distance`, or `none` for `NoPathException`; `pos_within pos r`
lists the maze cells whose graph distance from `pos` is at most `r`.
`noise_radius` and `sight_distance` default to 5 as in
`UniverseNoiser.__init__`. -/
structure UniverseNoiser where
  a_star : Pos → Pos → Option (List Pos)
  pos_within : Pos → Nat → List Pos
  noise_radius : Nat := 5
  sight_distance : Nat := 5

/-- The body of the loop in `UniverseNoiser.uniform_noise` for one enemy
bot `b`: compute the path length from the mover's position
(`NoPathException` ⇒ `distance = None`); if there is no path or the
distance exceeds `sight_distance`, move the bot to a `random.choice` of
`pos_within(b.current_pos, noise_radius)` and set `noisy`. -/
def noise_bot (N : UniverseNoiser) (mover_pos : Pos) (rand : Nat → Nat)
    (b : Bot) : Bot :=
  let distance : Option Nat := (N.a_star mover_pos b.current_pos).map List.length
  let noised : Bot :=
    let possible_positions := N.pos_within b.current_pos N.noise_radius
    { b with
      current_pos := choice possible_positions (rand b.index) b.current_pos
      noisy := true }
  match distance with
  | none => noised
  | some d => if N.sight_distance < d then noised else b

/-- `UniverseNoiser.uniform_noise`: perturb the positions of the enemies of
`bots[bot_index]` (the universe is a private copy; only the enemies of the
mover's team are touched).  The `random.choice` draws are supplied per bot
index by `rand`. -/
def uniform_noise (N : UniverseNoiser) (u : UnivDyn) (bot_index : Nat)
    (rand : Nat → Nat) : UnivDyn :=
  match u.bots.get? bot_index with
  | none => u
  | some bot =>
    { u with
      bots := u.bots.map (fun b =>
        if b.team_index != bot.team_index then noise_bot N bot.current_pos rand b
        else b) }

/-! ## Generic helper lemmas -/

theorem choice_mem {α : Type} (l : List α) (k : Nat) (d : α) (h : l ≠ []) :
    choice l k d ∈ l := by
  have hl : 0 < l.length := List.length_pos.mpr h
  have hk : k % l.length < l.length := Nat.mod_lt _ hl
  simp only [choice, List.getD_eq_getElem?_getD, List.getElem?_eq_getElem hk,
    Option.getD_some]
  exact List.getElem_mem _

theorem bump_getD_self (l : List Nat) (i : Nat) (v : Nat) (h : i < l.length) :
    (bump l i v).getD i 0 = l.getD i 0 + v := by
  simp only [bump, List.getD_eq_getElem?_getD, List.getElem?_set_self h,
    Option.getD_some]

/-! ## Theorems for the claims -/

/-- C3: `check_winner` runs only the first time `finished` becomes true and
is skipped entirely when `team_wins` (or `game_draw`) was already set by a
disqualification; otherwise it sets `team_wins` to the team whose score is
strictly higher and sets `game_draw` when the scores are equal.  The last
conjunct shows a second evaluation never changes anything again. -/
theorem check_winner_spec (st : SchedState) :
    (st.gs.finished = false → check_winner st = st) ∧
    (st.gs.team_wins ≠ none ∨ st.gs.game_draw ≠ none → check_winner st = st) ∧
    (st.gs.finished = true → st.gs.team_wins = none → st.gs.game_draw = none →
      ((st.dyn.teams.getD 1 ⟨0, "", 0⟩).score < (st.dyn.teams.getD 0 ⟨0, "", 0⟩).score →
        (check_winner st).gs.team_wins = some 0 ∧ (check_winner st).gs.game_draw = none) ∧
      ((st.dyn.teams.getD 0 ⟨0, "", 0⟩).score < (st.dyn.teams.getD 1 ⟨0, "", 0⟩).score →
        (check_winner st).gs.team_wins = some 1 ∧ (check_winner st).gs.game_draw = none) ∧
      ((st.dyn.teams.getD 0 ⟨0, "", 0⟩).score = (st.dyn.teams.getD 1 ⟨0, "", 0⟩).score →
        (check_winner st).gs.game_draw = some true ∧ (check_winner st).gs.team_wins = none)) ∧
    check_winner (check_winner st) = check_winner st := by
  refine ⟨?_, ?_, ?_, ?_⟩
  · intro h; simp [check_winner, h]
  · intro h
    have h' : st.gs.team_wins.isSome || st.gs.game_draw.isSome := by
      rcases h with h | h
      · simp [Option.isSome_iff_ne_none, h]
      · simp [Option.isSome_iff_ne_none, h]
    simp [check_winner, h']
  · intro hf h0 h1
    have hw : (st.gs.team_wins.isSome || st.gs.game_draw.isSome) = false := by
      simp [h0, h1]
    have key : check_winner st =
        (if (st.dyn.teams.getD 1 ⟨0, "", 0⟩).score < (st.dyn.teams.getD 0 ⟨0, "", 0⟩).score then
          { st with gs := { st.gs with team_wins := some 0 } }
        else if (st.dyn.teams.getD 0 ⟨0, "", 0⟩).score < (st.dyn.teams.getD 1 ⟨0, "", 0⟩).score then
          { st with gs := { st.gs with team_wins := some 1 } }
        else { st with gs := { st.gs with game_draw := some true } }) := by
      simp [check_winner, hf, hw]
    refine ⟨fun hs => ?_, fun hs => ?_, fun hs => ?_⟩
    · rw [key, if_pos hs]; exact ⟨rfl, h1⟩
    · rw [key, if_neg (by omega), if_pos hs]; exact ⟨rfl, h1⟩
    · rw [key, if_neg (by omega), if_neg (by omega)]; exact ⟨rfl, h0⟩
  · by_cases hf : st.gs.finished = false
    · simp [check_winner, hf]
    · rw [Bool.not_eq_false] at hf
      by_cases hw : (st.gs.team_wins.isSome || st.gs.game_draw.isSome) = true
      · simp [check_winner, hf, hw]
      · have h0 : st.gs.team_wins = none := by
          rcases Bool.or_eq_false_iff.mp (Bool.not_eq_true _ ▸ hw) with ⟨a, _⟩
          simpa [Option.isSome_iff_ne_none] using a
        have h1 : st.gs.game_draw = none := by
          rcases Bool.or_eq_false_iff.mp (Bool.not_eq_true _ ▸ hw) with ⟨_, b⟩
          simpa [Option.isSome_iff_ne_none] using b
        simp only [check_winner, hf, h0, h1]
        split_ifs <;> simp_all

/-- `round_reached` holds exactly when `round_index` is a number at least
`game_time` (`None >= int` is `False` in Python 2). -/
theorem round_reached_iff (r : Option Nat) (g : Nat) :
    round_reached r g = true ↔ ∃ n, r = some n ∧ g ≤ n := by
  cases r <;> simp [round_reached]

/-- The `not all(food_left)` test of `check_finished`, as an existential. -/
theorem food_all_iff (st : SchedState) :
    ((st.dyn.teams.map (fun t => st.dyn.enemy_food.getD t.index 0)).all
      (fun n => n != 0) = false) ↔
    ∃ t ∈ st.dyn.teams, st.dyn.enemy_food.getD t.index 0 = 0 := by
  simp [List.all_eq_false]

/-- The complete characterisation of the `finished` flag computed by
`check_finished` (helper shared by several developments below). -/
theorem check_finished_finished_iff (cfg : Config) (st : SchedState) :
    ((check_finished cfg st).gs.finished = true ↔
      (st.gs.team_wins ≠ none ∨ st.gs.game_draw ≠ none) ∨
      (∃ n, st.gs.round_index = some n ∧ cfg.game_time ≤ n) ∨
      (∃ t ∈ st.dyn.teams, st.dyn.enemy_food.getD t.index 0 = 0)) := by
  have hfin : (check_finished cfg st).gs.finished =
      ((st.gs.team_wins.isSome || st.gs.game_draw.isSome) ||
       round_reached st.gs.round_index cfg.game_time ||
       !((st.dyn.teams.map (fun t => st.dyn.enemy_food.getD t.index 0)).all
          (fun n => n != 0))) := by
    unfold check_finished
    by_cases hr : round_reached st.gs.round_index cfg.game_time = true
    · simp [hr]
    · rw [Bool.not_eq_true] at hr
      simp [hr]
      split_ifs with h
      · have hall : (st.dyn.teams.map (fun t => st.dyn.enemy_food.getD t.index 0)).all
            (fun n => n != 0) = true :=
          List.all_eq_true.mpr (by
            intro x hx
            rcases List.mem_map.mp hx with ⟨t, ht, rfl⟩
            simpa using h t ht)
        simp only [hall, Bool.not_true, Bool.or_false]
        simp
        intro x hx h0
        exact absurd h0 (h x hx)
      · have hall : (st.dyn.teams.map (fun t => st.dyn.enemy_food.getD t.index 0)).all
            (fun n => n != 0) = false := by
          rw [food_all_iff]
          push_neg at h
          rcases h with ⟨t, ht, h0⟩
          exact ⟨t, ht, by simpa using h0⟩
        simp only [hall, Bool.not_false, Bool.or_true]
        simp
        push_neg at h
        rcases h with ⟨t, ht, h0⟩
        exact Or.inr ⟨t, ht, h0⟩
  rw [hfin]
  simp only [Bool.or_eq_true, Bool.not_eq_true', Option.isSome_iff_ne_none,
    round_reached_iff, food_all_iff, or_assoc]

/-- C4: `check_finished` (evaluated at the round boundaries of
`_play_bot_iterator`) sets `finished` exactly when `team_wins` or
`game_draw` is already set, or `round_index` has reached `game_time`
(`round_index = None` never counts as reached), or some team's remaining
opposing food count is zero. -/
theorem check_finished_spec (cfg : Config) (st : SchedState) :
    ((check_finished cfg st).gs.finished = true ↔
      (st.gs.team_wins ≠ none ∨ st.gs.game_draw ≠ none) ∨
      (∃ n, st.gs.round_index = some n ∧ cfg.game_time ≤ n) ∨
      (∃ t ∈ st.dyn.teams, st.dyn.enemy_food.getD t.index 0 = 0)) :=
  check_finished_finished_iff cfg st

/-! ## Concrete test fixtures (used by witnesses and counterexamples) -/

/-- A two-bot, two-team universe: bot 0 on team 0, bot 1 on team 1, one
unit of opposing food left for each team. -/
def dyn0 : UnivDyn :=
  { bots := [⟨0, 0, (1, 1), false⟩, ⟨1, 1, (2, 2), false⟩]
    teams := [⟨0, "a", 0⟩, ⟨1, "b", 0⟩]
    enemy_food := [1, 1] }

/-- A one-round match on `dyn0`; every position has "stand still" and one
east move legal, and moves change nothing. -/
def cfg0 : Config :=
  { game_time := 1
    legal_moves := fun _ => [stop, (0, 1)]
    move_bot := fun d _ _ => some (d, ⟨[], [], []⟩) }

/-- A ten-round match, otherwise as `cfg0`. -/
def cfgT : Config :=
  { game_time := 10
    legal_moves := fun _ => [stop, (0, 1)]
    move_bot := fun d _ _ => some (d, ⟨[], [], []⟩) }

/-- A configuration whose legal-move lists never contain "stand still". -/
def cfgNS : Config :=
  { game_time := 10
    legal_moves := fun _ => [(0, 1)]
    move_bot := fun d _ _ => some (d, ⟨[], [], []⟩) }

/-- A turn input with fixed randomness and zero elapsed time. -/
def ti (r : AgentResult) : TurnInput := ⟨r, 0, 0⟩

/-- A scheduler state in which team 0 already has four timeouts. -/
def stC1 : SchedState :=
  { init_state dyn0 with gs := { initial_game_state with timeout_teams := [4, 0] } }

/-! ## C8 and C10: the fallback path -/

/-- C8: every fallback move applied by the MoveRejected/Timeout recovery
path while the team is below the disqualification threshold is a legal
move at the bot's current position, and is not "stand still" whenever some
other legal move exists.  (`Nodup` holds for the real universe because
`get_legal_moves` returns the keys of a dict.) -/
theorem fallback_move_legal (cfg : Config) (st : SchedState) (bot : Bot)
    (k : Nat) (st' : SchedState)
    (hnd : (cfg.legal_moves bot.current_pos).Nodup)
    (_hbelow : st.gs.timeout_teams.getD bot.team_index 0 + 1 ≠ MAX_TIMEOUTS)
    (hrun : timeout_recovery cfg st bot k = some st') :
    ∃ mv, st'.appliedMoves = st.appliedMoves ++ [(bot.index, mv)] ∧
      mv ∈ cfg.legal_moves bot.current_pos ∧
      ((∃ m ∈ cfg.legal_moves bot.current_pos, m ≠ stop) → mv ≠ stop) := by
  unfold timeout_recovery at hrun
  by_cases hstop : stop ∈ cfg.legal_moves bot.current_pos
  · rw [fallback_moves, if_pos hstop] at hrun
    dsimp only at hrun
    rcases hmb : cfg.move_bot st.dyn bot.index
        (choice (if (cfg.legal_moves bot.current_pos).erase stop |>.isEmpty then [stop]
                 else (cfg.legal_moves bot.current_pos).erase stop) k stop) with _ | ⟨d', diff⟩
    · rw [hmb] at hrun; cases hrun
    · rw [hmb] at hrun
      injection hrun with h
      subst h
      by_cases hemp : ((cfg.legal_moves bot.current_pos).erase stop).isEmpty = true
      · have hif : (if ((cfg.legal_moves bot.current_pos).erase stop).isEmpty = true
              then [stop] else (cfg.legal_moves bot.current_pos).erase stop) = [stop] :=
          if_pos hemp
        refine ⟨_, rfl, ?_, ?_⟩ <;> rw [hif]
        · have hc : choice [stop] k stop = stop := by simp [choice]
          rw [hc]; exact hstop
        · rintro ⟨m, hm, hmstop⟩
          have hmem : m ∈ (cfg.legal_moves bot.current_pos).erase stop :=
            (List.mem_erase_of_ne hmstop).mpr hm
          have hne := List.ne_nil_of_mem hmem
          have : ((cfg.legal_moves bot.current_pos).erase stop).isEmpty = false := by
            cases hx : (cfg.legal_moves bot.current_pos).erase stop with
            | nil => exact absurd hx hne
            | cons a l => simp [hx]
          rw [hemp] at this; cases this
      · have hne : (cfg.legal_moves bot.current_pos).erase stop ≠ [] := by
          intro hx; apply hemp; simp [hx]
        have hif : (if ((cfg.legal_moves bot.current_pos).erase stop).isEmpty = true
              then [stop] else (cfg.legal_moves bot.current_pos).erase stop) =
            (cfg.legal_moves bot.current_pos).erase stop := if_neg hemp
        refine ⟨_, rfl, ?_, ?_⟩ <;> rw [hif]
        · exact List.mem_of_mem_erase (choice_mem _ k stop hne)
        · intro _ hcontra
          have hmm := choice_mem ((cfg.legal_moves bot.current_pos).erase stop) k stop hne
          rw [hcontra] at hmm
          exact hnd.not_mem_erase hmm
  · rw [fallback_moves, if_neg hstop] at hrun
    cases hrun

/-- C10: the MoveRejected/Timeout recovery path removes "stand still" from
the legal-move list unconditionally (`moves.remove(stop)`), so it is total
only under the precondition that "stand still" is legal at the failing
bot's current position: without it the path raises an unhandled
`ValueError` (modelled by `none`) and applies no fallback move; with it
(and a universe that accepts the chosen fallback) the turn completes. -/
theorem recovery_requires_stop (cfg : Config) (st : SchedState)
    (i : Nat) (inp : TurnInput) (bot : Bot)
    (hb : st.dyn.bots.get? i = some bot) (hr : inp.result = .timeout) :
    (stop ∉ cfg.legal_moves bot.current_pos → _play_bot cfg st i inp = none) ∧
    (stop ∈ cfg.legal_moves bot.current_pos →
      (∀ d j mv, cfg.move_bot d j mv ≠ none) →
      _play_bot cfg st i inp ≠ none) := by
  obtain ⟨res, k, e⟩ := inp
  cases hr
  unfold _play_bot
  rw [hb]
  dsimp only
  constructor
  · intro hstop
    unfold timeout_recovery
    rw [fallback_moves, if_neg hstop]
  · intro hstop hmb
    unfold timeout_recovery
    rw [fallback_moves, if_pos hstop]
    dsimp only
    rcases h : cfg.move_bot st.dyn bot.index _ with _ | ⟨d', diff⟩
    · exact absurd h (hmb _ _ _)
    · simp

/-! ## C1 and C2: disqualification paths -/

/-- Once `team_wins` is set, any `check_finished` evaluation reports the
match finished. -/
theorem check_finished_of_team_wins (cfg : Config) (st : SchedState)
    (h : st.gs.team_wins.isSome = true) :
    (check_finished cfg st).gs.finished = true := by
  simp only [check_finished]
  split_ifs <;> simp [h]

/-- C1 counterexample: team 0 already has 4 timeouts (`stC1`) and its bot
times out again, so the count reaches the maximum of 5
(`timeout_teams = [5, 0]`) and `team_wins` becomes `some 1` — yet
`finished` is still `false` and a fallback move was applied
(`appliedMoves` has length 1), contradicting the claim that the match ends
immediately without executing any fallback move. -/
theorem fifth_timeout_counterexample :
    (_play_bot cfgT stC1 0 (ti .timeout)).map
      (fun s => (s.gs.timeout_teams, s.gs.team_wins, s.gs.finished, s.appliedMoves.length))
      = some ([5, 0], some 1, false, 1) := by rfl

/-- C1 (amended): when a team's timeout count reaches `MAX_TIMEOUTS` on a
MoveRejected/Timeout failure, `_play_bot` sets `team_wins` to the opposing
team — but it still chooses and applies a fallback move for that turn, and
it leaves `finished` unchanged; the match only ends at the next
`check_finished` evaluation (run after the round completes), which reports
finished because `team_wins` is set. -/
theorem fifth_timeout_disqualifies (cfg : Config) (st : SchedState)
    (i : Nat) (inp : TurnInput) (bot : Bot) (st' : SchedState)
    (hb : st.dyn.bots.get? i = some bot)
    (hr : inp.result = .timeout)
    (hlen : bot.team_index < st.gs.timeout_teams.length)
    (hcount : st.gs.timeout_teams.getD bot.team_index 0 + 1 = MAX_TIMEOUTS)
    (hrun : _play_bot cfg st i inp = some st') :
    st'.gs.team_wins = some (1 - bot.team_index) ∧
    st'.gs.finished = st.gs.finished ∧
    st'.appliedMoves.length = st.appliedMoves.length + 1 ∧
    ∀ cfg2, (check_finished cfg2 st').gs.finished = true := by
  obtain ⟨res, k, e⟩ := inp
  cases hr
  unfold _play_bot at hrun
  rw [hb] at hrun
  dsimp only at hrun
  unfold timeout_recovery at hrun
  rw [fallback_moves] at hrun
  by_cases hstop : stop ∈ cfg.legal_moves bot.current_pos
  · rw [if_pos hstop] at hrun
    dsimp only at hrun
    have hmax : (bump st.gs.timeout_teams bot.team_index 1).getD bot.team_index 0 =
        MAX_TIMEOUTS := by
      rw [bump_getD_self _ _ _ hlen]; exact hcount
    rw [if_pos hmax] at hrun
    rcases hmb : cfg.move_bot st.dyn bot.index
        (choice (if (cfg.legal_moves bot.current_pos).erase stop |>.isEmpty then [stop]
                 else (cfg.legal_moves bot.current_pos).erase stop) k stop)
        with _ | ⟨d', diff⟩
    · rw [hmb] at hrun; cases hrun
    · rw [hmb] at hrun
      injection hrun with h
      subst h
      exact ⟨rfl, rfl, by simp, fun cfg2 => check_finished_of_team_wins cfg2 _ rfl⟩
  · rw [if_neg hstop] at hrun
    cases hrun

/-- C2 counterexample: in a round where team 0's agent disconnects at the
first bot turn, the very next viewer snapshot already has
`team_wins = some 1` but `finished = false`, and the second bot (team 1)
still takes its turn and applies a move — so the scheduler does not mark
the match finished immediately on `Disconnected`; `finished` only becomes
true at the round-boundary `check_finished`. -/
theorem disconnect_counterexample :
    (play_round cfgT (init_state dyn0) [ti .disconnected, ti (.success stop)]).map
      (fun s => (s.observations.map (fun g => (g.team_wins, g.finished)), s.appliedMoves)) =
    some ([(some 1, false), (some 1, false), (some 1, true)], [(1, stop)]) := by rfl

/-- C2 (amended): on `Disconnected`, `_play_bot` immediately sets
`team_wins` to the opposing team and applies no fallback move (the
universe and the applied-move log are untouched) — but it does not mark
the match finished at that moment: `finished` is unchanged, and only the
next `check_finished` evaluation (at the round boundary) reports finished
because `team_wins` is set. -/
theorem disconnect_disqualifies (cfg : Config) (st : SchedState) (i : Nat)
    (inp : TurnInput) (bot : Bot)
    (hb : st.dyn.bots.get? i = some bot)
    (hr : inp.result = .disconnected) :
    ∃ st', _play_bot cfg st i inp = some st' ∧
      st'.gs.team_wins = some (1 - bot.team_index) ∧
      st'.appliedMoves = st.appliedMoves ∧
      st'.dyn = st.dyn ∧
      st'.gs.finished = st.gs.finished ∧
      ∀ cfg2, (check_finished cfg2 st').gs.finished = true := by
  obtain ⟨res, k, e⟩ := inp
  cases hr
  have heq : _play_bot cfg st i ⟨.disconnected, k, e⟩ = some
      { st with
        gs := { st.gs with
                bot_id := some bot.index
                bot_moved := []
                food_eaten := []
                bot_destroyed := []
                team_wins := some (1 - bot.team_index) }
        turnCount := st.turnCount + 1 } := by
    unfold _play_bot
    rw [hb]
  exact ⟨_, heq, rfl, rfl, rfl, rfl, fun cfg2 => check_finished_of_team_wins cfg2 _ rfl⟩

/-! ## C7: the fog-of-war noise engine -/

/-- `uniform_noise` transforms each bot pointwise: enemies of the mover's
team go through `noise_bot`, everything else is untouched. -/
theorem uniform_noise_get (N : UniverseNoiser) (u : UnivDyn) (i j : Nat)
    (rand : Nat → Nat) (bot b : Bot)
    (hi : u.bots.get? i = some bot) (hj : u.bots.get? j = some b) :
    (uniform_noise N u i rand).bots.get? j =
      some (if b.team_index != bot.team_index then noise_bot N bot.current_pos rand b
            else b) := by
  unfold uniform_noise
  rw [hi]
  dsimp only
  rw [List.get?_eq_getElem?, List.getElem?_map, ← List.get?_eq_getElem?, hj]
  rfl

/-- `noise_bot` leaves a visible enemy untouched. -/
theorem noise_bot_visible (N : UniverseNoiser) (mover_pos : Pos)
    (rand : Nat → Nat) (b : Bot) (path : List Pos)
    (hpath : N.a_star mover_pos b.current_pos = some path)
    (hlen : path.length ≤ N.sight_distance) :
    noise_bot N mover_pos rand b = b := by
  unfold noise_bot
  rw [hpath, Option.map_some']
  exact if_neg (not_lt.mpr hlen)

/-- `noise_bot` relocates and marks an enemy that has no path to the mover
or is farther than `sight_distance`. -/
theorem noise_bot_noised (N : UniverseNoiser) (mover_pos : Pos)
    (rand : Nat → Nat) (b : Bot)
    (hfar : N.a_star mover_pos b.current_pos = none ∨
      (∃ path, N.a_star mover_pos b.current_pos = some path ∧
        N.sight_distance < path.length)) :
    noise_bot N mover_pos rand b =
      { b with
        current_pos := choice (N.pos_within b.current_pos N.noise_radius)
          (rand b.index) b.current_pos
        noisy := true } := by
  unfold noise_bot
  rcases hfar with h | ⟨path, hpath, hlen⟩
  · rw [h]; rfl
  · rw [hpath, Option.map_some']
    exact if_pos hlen

/-- C7: in the noised snapshot handed to a mover, every opponent is
reported exactly when it is visible — if `a_star` finds a path of length
at most `sight_distance`, the opponent keeps its true position and its
`noisy` flag is untouched; if there is no path or the path is longer, the
opponent is moved to a cell drawn from the cells within `noise_radius` of
its true position and is marked `noisy` — and every cell of that set can
be drawn for a suitable random draw. -/
theorem uniform_noise_spec (N : UniverseNoiser) (u : UnivDyn) (i j : Nat)
    (rand : Nat → Nat) (bot b : Bot)
    (hi : u.bots.get? i = some bot) (hj : u.bots.get? j = some b)
    (henemy : b.team_index ≠ bot.team_index) :
    (∀ path, N.a_star bot.current_pos b.current_pos = some path →
        path.length ≤ N.sight_distance →
        (uniform_noise N u i rand).bots.get? j = some b) ∧
    ((N.a_star bot.current_pos b.current_pos = none ∨
      (∃ path, N.a_star bot.current_pos b.current_pos = some path ∧
        N.sight_distance < path.length)) →
      N.pos_within b.current_pos N.noise_radius ≠ [] →
      ∃ b', (uniform_noise N u i rand).bots.get? j = some b' ∧
        b'.index = b.index ∧ b'.team_index = b.team_index ∧
        b'.current_pos ∈ N.pos_within b.current_pos N.noise_radius ∧
        b'.noisy = true) ∧
    (∀ p ∈ N.pos_within b.current_pos N.noise_radius,
      (N.a_star bot.current_pos b.current_pos = none ∨
       (∃ path, N.a_star bot.current_pos b.current_pos = some path ∧
         N.sight_distance < path.length)) →
      ∃ k b', (uniform_noise N u i (fun _ => k)).bots.get? j = some b' ∧
        b'.current_pos = p) := by
  have hbne : (b.team_index != bot.team_index) = true := by
    simpa using henemy
  refine ⟨?_, ?_, ?_⟩
  · intro path hpath hlen
    rw [uniform_noise_get N u i j rand bot b hi hj, if_pos hbne,
      noise_bot_visible N bot.current_pos rand b path hpath hlen]
  · intro hfar hne
    rw [uniform_noise_get N u i j rand bot b hi hj, if_pos hbne,
      noise_bot_noised N bot.current_pos rand b hfar]
    exact ⟨_, rfl, rfl, rfl, choice_mem _ _ _ hne, rfl⟩
  · intro p hp hfar
    obtain ⟨n, hn⟩ := List.mem_iff_get?.mp hp
    have hlt : n < (N.pos_within b.current_pos N.noise_radius).length := by
      by_contra hcon
      rw [List.get?_eq_none.mpr (le_of_not_lt hcon)] at hn
      cases hn
    refine ⟨n, noise_bot N bot.current_pos (fun _ => n) b, ?_, ?_⟩
    · rw [uniform_noise_get N u i j (fun _ => n) bot b hi hj, if_pos hbne]
    · rw [noise_bot_noised N bot.current_pos (fun _ => n) b hfar]
      show choice (N.pos_within b.current_pos N.noise_radius) n b.current_pos = p
      unfold choice
      rw [Nat.mod_eq_of_lt hlt, List.getD_eq_getElem?_getD,
        ← List.get?_eq_getElem?, hn]
      rfl

/-! ## Per-operation effect lemmas for the trace invariants -/

/-- The order in which `round_index` evolves: `None` precedes every value,
numbers are compared as usual. -/
def optLE : Option Nat → Option Nat → Prop
  | none, _ => True
  | some _, none => False
  | some a, some b => a ≤ b

theorem optLE_refl (a : Option Nat) : optLE a a := by
  cases a <;> simp [optLE]

theorem optLE_trans {a b c : Option Nat} (h1 : optLE a b) (h2 : optLE b c) :
    optLE a c := by
  cases a with
  | none => trivial
  | some x =>
    cases b with
    | none => exact absurd h1 (by simp [optLE])
    | some y =>
      cases c with
      | none => exact absurd h2 (by simp [optLE])
      | some z =>
        simp only [optLE] at *
        omega

theorem prepare_next_round_facts (cfg : Config) (st : SchedState) :
    (prepare_next_round cfg st).dyn = st.dyn ∧
    (prepare_next_round cfg st).observations = st.observations ∧
    (prepare_next_round cfg st).turnCount = st.turnCount ∧
    (prepare_next_round cfg st).appliedMoves = st.appliedMoves ∧
    (prepare_next_round cfg st).gs.team_wins = st.gs.team_wins ∧
    (prepare_next_round cfg st).gs.game_draw = st.gs.game_draw ∧
    (prepare_next_round cfg st).gs.timeout_teams = st.gs.timeout_teams := by
  unfold prepare_next_round
  split_ifs with hf
  · exact ⟨rfl, rfl, rfl, rfl, rfl, rfl, rfl⟩
  · dsimp only
    cases h : st.gs.round_index with
    | none => exact ⟨rfl, rfl, rfl, rfl, rfl, rfl, rfl⟩
    | some r =>
      dsimp only
      split_ifs <;> exact ⟨rfl, rfl, rfl, rfl, rfl, rfl, rfl⟩

/-- `prepare_next_round` only moves `round_index` forward, and keeps it
within `game_time`. -/
theorem prepare_next_round_le (cfg : Config) (st : SchedState) :
    optLE st.gs.round_index (prepare_next_round cfg st).gs.round_index ∧
    ((∀ n, st.gs.round_index = some n → n ≤ cfg.game_time) →
      ∀ n, (prepare_next_round cfg st).gs.round_index = some n →
        n ≤ cfg.game_time) := by
  unfold prepare_next_round
  split_ifs with hf
  · exact ⟨optLE_refl _, fun h => h⟩
  · dsimp only
    cases h : st.gs.round_index with
    | none =>
      dsimp only
      refine ⟨trivial, fun _ n hn => ?_⟩
      injection hn with h2
      omega
    | some r =>
      dsimp only
      split_ifs with hlt
      · refine ⟨by simp only [optLE]; omega, fun _ n hn => ?_⟩
        injection hn with h2
        omega
      · refine ⟨optLE_refl _, fun hb n hn => ?_⟩
        injection hn with h2
        have := hb r rfl
        omega

theorem check_finished_facts (cfg : Config) (st : SchedState) :
    (check_finished cfg st).dyn = st.dyn ∧
    (check_finished cfg st).observations = st.observations ∧
    (check_finished cfg st).turnCount = st.turnCount ∧
    (check_finished cfg st).appliedMoves = st.appliedMoves ∧
    (check_finished cfg st).gs.team_wins = st.gs.team_wins ∧
    (check_finished cfg st).gs.game_draw = st.gs.game_draw ∧
    (check_finished cfg st).gs.round_index = st.gs.round_index ∧
    (check_finished cfg st).gs.timeout_teams = st.gs.timeout_teams := by
  simp only [check_finished]
  split_ifs <;> exact ⟨rfl, rfl, rfl, rfl, rfl, rfl, rfl, rfl⟩

theorem check_winner_facts (st : SchedState) :
    (check_winner st).dyn = st.dyn ∧
    (check_winner st).observations = st.observations ∧
    (check_winner st).turnCount = st.turnCount ∧
    (check_winner st).appliedMoves = st.appliedMoves ∧
    (check_winner st).gs.round_index = st.gs.round_index ∧
    (check_winner st).gs.finished = st.gs.finished ∧
    (check_winner st).gs.timeout_teams = st.gs.timeout_teams := by
  simp only [check_winner]
  split_ifs <;> exact ⟨rfl, rfl, rfl, rfl, rfl, rfl, rfl⟩

/-- `check_winner` never makes both `team_wins` and `game_draw` set. -/
theorem check_winner_mutex (st : SchedState)
    (h : st.gs.team_wins = none ∨ st.gs.game_draw = none) :
    (check_winner st).gs.team_wins = none ∨
    (check_winner st).gs.game_draw = none := by
  unfold check_winner
  by_cases hf : (!st.gs.finished) = true
  · rw [if_pos hf]; exact h
  · rw [if_neg hf]
    by_cases hw : (st.gs.team_wins.isSome || st.gs.game_draw.isSome) = true
    · rw [if_pos hw]; exact h
    · rw [if_neg hw]
      have h1 : st.gs.game_draw = none := by
        rcases Bool.or_eq_false_iff.mp (Bool.not_eq_true _ ▸ hw) with ⟨_, b⟩
        simpa [Option.isSome_iff_ne_none] using b
      have h0 : st.gs.team_wins = none := by
        rcases Bool.or_eq_false_iff.mp (Bool.not_eq_true _ ▸ hw) with ⟨a, _⟩
        simpa [Option.isSome_iff_ne_none] using a
      dsimp only
      split_ifs <;> simp [h0, h1]

/-- If `check_finished` reports the match not finished, then neither
`team_wins` nor `game_draw` was set. -/
theorem check_finished_false_none (cfg : Config) (st : SchedState)
    (h : (check_finished cfg st).gs.finished = false) :
    st.gs.team_wins = none ∧ st.gs.game_draw = none := by
  have hiff := check_finished_finished_iff cfg st
  rw [h] at hiff
  have hnot := (not_iff_not.mpr hiff).mp (by simp)
  push_neg at hnot
  exact ⟨hnot.1.1, hnot.1.2⟩

theorem timeout_recovery_facts (cfg : Config) (st : SchedState) (bot : Bot)
    (k : Nat) (st' : SchedState)
    (h : timeout_recovery cfg st bot k = some st') :
    st'.observations = st.observations ∧
    st'.turnCount = st.turnCount ∧
    st'.gs.round_index = st.gs.round_index ∧
    st'.gs.game_draw = st.gs.game_draw ∧
    st'.gs.finished = st.gs.finished := by
  unfold timeout_recovery at h
  rcases hfb : fallback_moves (cfg.legal_moves bot.current_pos) with _ | moves
  · rw [hfb] at h; cases h
  · rw [hfb] at h
    dsimp only at h
    rcases hmb : cfg.move_bot st.dyn bot.index (choice moves k stop) with _ | ⟨d', diff⟩
    · rw [hmb] at h; cases h
    · rw [hmb] at h
      injection h with h
      subst h
      refine ⟨rfl, rfl, ?_, ?_, ?_⟩ <;>
        (dsimp only [merge_diff]; split_ifs <;> rfl)

theorem _play_bot_facts (cfg : Config) (st : SchedState) (i : Nat)
    (inp : TurnInput) (st' : SchedState)
    (h : _play_bot cfg st i inp = some st') :
    st'.observations = st.observations ∧
    st'.gs.round_index = st.gs.round_index ∧
    st'.gs.game_draw = st.gs.game_draw ∧
    st'.gs.finished = st.gs.finished := by
  unfold _play_bot at h
  rcases hb : st.dyn.bots.get? i with _ | bot
  · rw [hb] at h; injection h with h; subst h; exact ⟨rfl, rfl, rfl, rfl⟩
  · rw [hb] at h
    dsimp only at h
    obtain ⟨res, k, e⟩ := inp
    cases res with
    | disconnected =>
      injection h with h; subst h; exact ⟨rfl, rfl, rfl, rfl⟩
    | timeout =>
      have := timeout_recovery_facts _ _ _ _ _ h
      exact ⟨this.1, this.2.2.1, this.2.2.2.1, this.2.2.2.2⟩
    | success mv =>
      dsimp only at h
      rcases hmb : cfg.move_bot st.dyn bot.index mv with _ | ⟨d', diff⟩
      · rw [hmb] at h
        have := timeout_recovery_facts _ _ _ _ _ h
        exact ⟨this.1, this.2.2.1, this.2.2.2.1, this.2.2.2.2⟩
      · rw [hmb] at h
        injection h with h
        subst h
        exact ⟨rfl, rfl, rfl, rfl⟩

/-! ## C6: `round_index` is monotone non-decreasing and bounded -/

/-- The run invariant for C6: the current `round_index` is bounded by
`game_time`; every observed snapshot's `round_index` is bounded and at
most the current one; and the observed sequence is non-decreasing. -/
def round_inv (g : Nat) (st : SchedState) : Prop :=
  (∀ n, st.gs.round_index = some n → n ≤ g) ∧
  (∀ o ∈ st.observations, optLE o.round_index st.gs.round_index ∧
    ∀ n, o.round_index = some n → n ≤ g) ∧
  List.Chain' optLE (st.observations.map (fun o => o.round_index))

theorem round_inv_congr {g : Nat} {st st' : SchedState}
    (h1 : st'.observations = st.observations)
    (h2 : st'.gs.round_index = st.gs.round_index)
    (h : round_inv g st) : round_inv g st' := by
  unfold round_inv at *
  rw [h1, h2]
  exact h

theorem round_inv_mono {g : Nat} {st st' : SchedState}
    (h1 : st'.observations = st.observations)
    (hle : optLE st.gs.round_index st'.gs.round_index)
    (hbnd : ∀ n, st'.gs.round_index = some n → n ≤ g)
    (h : round_inv g st) : round_inv g st' := by
  obtain ⟨_, ho, hc⟩ := h
  refine ⟨hbnd, ?_, ?_⟩
  · rw [h1]
    exact fun o hoo => ⟨optLE_trans (ho o hoo).1 hle, (ho o hoo).2⟩
  · rw [h1]; exact hc

theorem round_inv_update_viewers {g : Nat} {st : SchedState}
    (h : round_inv g st) : round_inv g (update_viewers st) := by
  obtain ⟨hb, ho, hc⟩ := h
  unfold update_viewers round_inv
  dsimp only
  refine ⟨hb, ?_, ?_⟩
  · intro o hoo
    rcases List.mem_append.mp hoo with hoo | hoo
    · exact ho o hoo
    · rw [List.mem_singleton.mp hoo]
      exact ⟨optLE_refl _, hb⟩
  · rw [List.map_append, List.chain'_append]
    refine ⟨hc, List.chain'_singleton _, ?_⟩
    intro x hx y hy
    have hx' := List.mem_of_mem_getLast? hx
    rcases List.mem_map.mp hx' with ⟨o, hoo, rfl⟩
    simp only [List.map_cons, List.map_nil, List.head?_cons, Option.mem_def,
      Option.some_inj] at hy
    rw [← hy]
    exact (ho o hoo).1

theorem play_bots_go_round_inv (cfg : Config) {g : Nat} :
    ∀ (l : List (Nat × TurnInput)) (st st' : SchedState),
      play_bots_go cfg st l = some st' → round_inv g st → round_inv g st' := by
  intro l
  induction l with
  | nil =>
    intro st st' h hinv
    rw [play_bots_go] at h
    injection h with h
    rw [← h]
    exact hinv
  | cons p rest ih =>
    obtain ⟨i, inp⟩ := p
    intro st st' h hinv
    rw [play_bots_go] at h
    rcases hpb : _play_bot cfg st i inp with _ | st1
    · rw [hpb] at h; cases h
    · rw [hpb] at h
      rw [Option.bind_eq_bind, Option.some_bind] at h
      have hfacts := _play_bot_facts cfg st i inp st1 hpb
      refine ih _ _ h (round_inv_update_viewers (round_inv_congr ?_ ?_ hinv))
      · exact hfacts.1
      · exact hfacts.2.1

theorem play_round_round_inv (cfg : Config) (st : SchedState)
    (inputs : List TurnInput) (st' : SchedState)
    (h : play_round cfg st inputs = some st')
    (hinv : round_inv cfg.game_time st) : round_inv cfg.game_time st' := by
  unfold play_round at h
  by_cases hf : st.gs.finished = true
  · rw [if_pos hf] at h
    injection h with h
    rw [← h]; exact hinv
  · rw [if_neg hf] at h
    dsimp only at h
    have hinv1 : round_inv cfg.game_time (prepare_next_round cfg st) := by
      have hfacts := prepare_next_round_facts cfg st
      have hle := prepare_next_round_le cfg st
      exact round_inv_mono hfacts.2.1 hle.1 (hle.2 hinv.1) hinv
    set st1 := prepare_next_round cfg st with hst1
    by_cases h1 : st1.gs.finished = true
    · rw [if_pos h1, if_pos h1] at h
      injection h with h
      rw [← h]
      exact round_inv_update_viewers hinv1
    · rw [if_neg h1] at h
      have hinv2 : round_inv cfg.game_time (check_winner (check_finished cfg st1)) := by
        have hcf := check_finished_facts cfg st1
        have hcw := check_winner_facts (check_finished cfg st1)
        exact round_inv_congr (hcw.2.1.trans hcf.2.1)
          (hcw.2.2.2.2.1.trans hcf.2.2.2.2.2.2.1) hinv1
      set st2 := check_winner (check_finished cfg st1) with hst2
      by_cases h2 : st2.gs.finished = true
      · rw [if_pos h2] at h
        injection h with h
        rw [← h]
        exact round_inv_update_viewers hinv2
      · rw [if_neg h2] at h
        rcases hpb : play_bots cfg st2 inputs with _ | st3
        · rw [hpb] at h; cases h
        · rw [hpb] at h
          rw [Option.bind_eq_bind, Option.some_bind] at h
          have hinv3 : round_inv cfg.game_time st3 :=
            play_bots_go_round_inv cfg _ _ _ hpb hinv2
          have hinv4 : round_inv cfg.game_time (check_winner (check_finished cfg st3)) := by
            have hcf := check_finished_facts cfg st3
            have hcw := check_winner_facts (check_finished cfg st3)
            exact round_inv_congr (hcw.2.1.trans hcf.2.1)
              (hcw.2.2.2.2.1.trans hcf.2.2.2.2.2.2.1) hinv3
          injection h with h
          rw [← h]
          split_ifs
          · exact round_inv_update_viewers hinv4
          · exact hinv4

theorem play_loop_round_inv (cfg : Config) :
    ∀ (rounds : List (List TurnInput)) (st st' : SchedState),
      play_loop cfg st rounds = some st' →
      round_inv cfg.game_time st → round_inv cfg.game_time st' := by
  intro rounds
  induction rounds with
  | nil =>
    intro st st' h hinv
    rw [play_loop] at h
    injection h with h
    rw [← h]; exact hinv
  | cons r rs ih =>
    intro st st' h hinv
    rw [play_loop] at h
    split_ifs at h with hf
    · injection h with h; rw [← h]; exact hinv
    · rcases hpr : play_round cfg st r with _ | st1
      · rw [hpr] at h; cases h
      · rw [hpr] at h
        rw [Option.bind_eq_bind, Option.some_bind] at h
        exact ih _ _ h (play_round_round_inv cfg st r st1 hpr hinv)

theorem round_inv_init (g : Nat) (d : UnivDyn) : round_inv g (init_state d) := by
  refine ⟨fun n hn => ?_, fun o ho => ?_, ?_⟩
  · cases hn
  · cases ho
  · exact List.chain'_nil

/-- C6: across every `play` run of the scheduler from the initial state,
`round_index` starts as `None`, evolves monotonically non-decreasingly
across the per-turn snapshots (first to `0`, then upward), and never
exceeds `game_time` — neither in the final state nor in any snapshot. -/
theorem round_index_monotone_bounded (cfg : Config) (d : UnivDyn)
    (rounds : List (List TurnInput)) (st' : SchedState)
    (hrun : play cfg (init_state d) rounds = some st') :
    (init_state d).gs.round_index = none ∧
    (∀ n, st'.gs.round_index = some n → n ≤ cfg.game_time) ∧
    (∀ o ∈ st'.observations, optLE o.round_index st'.gs.round_index ∧
      ∀ n, o.round_index = some n → n ≤ cfg.game_time) ∧
    List.Chain' optLE (st'.observations.map (fun o => o.round_index)) := by
  unfold play at hrun
  rcases hpl : play_loop cfg (init_state d) rounds with _ | st1
  · rw [hpl] at hrun; cases hrun
  · rw [hpl] at hrun
    rw [Option.bind_eq_bind, Option.some_bind] at hrun
    injection hrun with hrun
    rw [← hrun]
    have hinv := play_loop_round_inv cfg rounds _ _ hpl (round_inv_init _ d)
    have hfin := round_inv_update_viewers hinv
    exact ⟨rfl, hfin.1, hfin.2.1, hfin.2.2⟩

/-! ## C5: mutual exclusion of `team_wins` and `game_draw` -/

/-- At most one of `team_wins` and `game_draw` is set. -/
abbrev gs_mutex (g : GameState) : Prop := g.team_wins = none ∨ g.game_draw = none

/-- `check_winner` is the identity when the match is not finished. -/
theorem check_winner_not_finished (st : SchedState)
    (h : st.gs.finished = false) : check_winner st = st := by
  simp [check_winner, h]

theorem play_bots_go_mutex (cfg : Config) :
    ∀ (l : List (Nat × TurnInput)) (st st' : SchedState),
      play_bots_go cfg st l = some st' →
      st.gs.game_draw = none →
      (∀ g ∈ st.observations, gs_mutex g) →
      st'.gs.game_draw = none ∧ (∀ g ∈ st'.observations, gs_mutex g) := by
  intro l
  induction l with
  | nil =>
    intro st st' h h1 h2
    rw [play_bots_go] at h
    injection h with h
    rw [← h]
    exact ⟨h1, h2⟩
  | cons p rest ih =>
    obtain ⟨i, inp⟩ := p
    intro st st' h h1 h2
    rw [play_bots_go] at h
    rcases hpb : _play_bot cfg st i inp with _ | st1
    · rw [hpb] at h; cases h
    · rw [hpb] at h
      rw [Option.bind_eq_bind, Option.some_bind] at h
      have hfacts := _play_bot_facts cfg st i inp st1 hpb
      have h1' : st1.gs.game_draw = none := by rw [hfacts.2.2.1]; exact h1
      refine ih _ _ h h1' ?_
      intro g hg
      simp only [update_viewers] at hg
      rcases List.mem_append.mp hg with hg | hg
      · apply h2; rw [← hfacts.1]; exact hg
      · rw [List.mem_singleton.mp hg]
        exact Or.inr h1'

theorem play_round_mutex (cfg : Config) (st : SchedState)
    (inputs : List TurnInput) (st' : SchedState)
    (h : play_round cfg st inputs = some st')
    (hm : gs_mutex st.gs) (ho : ∀ g ∈ st.observations, gs_mutex g) :
    gs_mutex st'.gs ∧ ∀ g ∈ st'.observations, gs_mutex g := by
  unfold play_round at h
  by_cases hf : st.gs.finished = true
  · rw [if_pos hf] at h; injection h with h; rw [← h]; exact ⟨hm, ho⟩
  · rw [if_neg hf] at h
    dsimp only at h
    set st1 := prepare_next_round cfg st with hst1
    have hp := prepare_next_round_facts cfg st
    have hm1 : gs_mutex st1.gs := by
      unfold gs_mutex
      rw [hst1, hp.2.2.2.2.1, hp.2.2.2.2.2.1]
      exact hm
    have ho1 : ∀ g ∈ st1.observations, gs_mutex g := by
      rw [hst1, hp.2.1]; exact ho
    by_cases h1 : st1.gs.finished = true
    · rw [if_pos h1, if_pos h1] at h
      injection h with h; rw [← h]
      refine ⟨hm1, ?_⟩
      intro g hg
      simp only [update_viewers] at hg
      rcases List.mem_append.mp hg with hg | hg
      · exact ho1 g hg
      · rw [List.mem_singleton.mp hg]; exact hm1
    · rw [if_neg h1] at h
      set st2 := check_winner (check_finished cfg st1) with hst2
      have hcf := check_finished_facts cfg st1
      have hcw := check_winner_facts (check_finished cfg st1)
      have hm2 : gs_mutex st2.gs := by
        rw [hst2]
        apply check_winner_mutex
        unfold gs_mutex at hm1
        rw [hcf.2.2.2.2.1, hcf.2.2.2.2.2.1]
        exact hm1
      have ho2 : ∀ g ∈ st2.observations, gs_mutex g := by
        rw [hst2, hcw.2.1, hcf.2.1]; exact ho1
      by_cases h2 : st2.gs.finished = true
      · rw [if_pos h2] at h
        injection h with h; rw [← h]
        refine ⟨hm2, ?_⟩
        intro g hg
        simp only [update_viewers] at hg
        rcases List.mem_append.mp hg with hg | hg
        · exact ho2 g hg
        · rw [List.mem_singleton.mp hg]; exact hm2
      · rw [if_neg h2] at h
        have h2' : st2.gs.finished = false := by
          rw [Bool.not_eq_true] at h2; exact h2
        have hcffin : (check_finished cfg st1).gs.finished = false := by
          rw [← hcw.2.2.2.2.2.1]
          exact h2'
        have hnone := check_finished_false_none cfg st1 hcffin
        have hgd2 : st2.gs.game_draw = none := by
          rw [hst2, check_winner_not_finished _ hcffin, hcf.2.2.2.2.2.1]
          exact hnone.2
        rcases hpb : play_bots cfg st2 inputs with _ | st3
        · rw [hpb] at h; cases h
        · rw [hpb] at h
          rw [Option.bind_eq_bind, Option.some_bind] at h
          rw [play_bots] at hpb
          have hb := play_bots_go_mutex cfg _ _ _ hpb hgd2 ho2
          have hcf3 := check_finished_facts cfg st3
          have hcw3 := check_winner_facts (check_finished cfg st3)
          have hm4 : gs_mutex (check_winner (check_finished cfg st3)).gs := by
            apply check_winner_mutex
            refine Or.inr ?_
            rw [hcf3.2.2.2.2.2.1]
            exact hb.1
          have ho4 : ∀ g ∈ (check_winner (check_finished cfg st3)).observations,
              gs_mutex g := by
            rw [hcw3.2.1, hcf3.2.1]; exact hb.2
          injection h with h
          rw [← h]
          split_ifs
          · refine ⟨hm4, ?_⟩
            intro g hg
            simp only [update_viewers] at hg
            rcases List.mem_append.mp hg with hg | hg
            · exact ho4 g hg
            · rw [List.mem_singleton.mp hg]; exact hm4
          · exact ⟨hm4, ho4⟩

theorem play_loop_mutex (cfg : Config) :
    ∀ (rounds : List (List TurnInput)) (st st' : SchedState),
      play_loop cfg st rounds = some st' →
      gs_mutex st.gs → (∀ g ∈ st.observations, gs_mutex g) →
      gs_mutex st'.gs ∧ ∀ g ∈ st'.observations, gs_mutex g := by
  intro rounds
  induction rounds with
  | nil =>
    intro st st' h hm ho
    rw [play_loop] at h
    injection h with h
    rw [← h]; exact ⟨hm, ho⟩
  | cons r rs ih =>
    intro st st' h hm ho
    rw [play_loop] at h
    split_ifs at h with hf
    · injection h with h; rw [← h]; exact ⟨hm, ho⟩
    · rcases hpr : play_round cfg st r with _ | st1
      · rw [hpr] at h; cases h
      · rw [hpr] at h
        rw [Option.bind_eq_bind, Option.some_bind] at h
        have := play_round_mutex cfg st r st1 hpr hm ho
        exact ih _ _ h this.1 this.2

/-- C5 counterexample: run from the initial state with both teams timing
out on every turn of every round.  During round 5 both teams reach the
timeout maximum: the per-turn snapshots show `team_wins = some 1` right
after team 0's disqualification and then `team_wins = some 0` after team
1's fifth timeout in the same round — `team_wins` is altered after being
set, and while it equals `some 1` the snapshot still has
`finished = false`, contradicting both "once set it is never altered" and
"once either is set, finished is true". -/
theorem team_wins_overwritten_counterexample :
    (play cfgT (init_state dyn0) (List.replicate 6 [ti .timeout, ti .timeout])).map
      (fun s => (s.observations.map (fun g => (g.team_wins, g.finished)), s.gs.team_wins)) =
    some ([(none, false), (none, false), (none, false), (none, false),
           (none, false), (none, false), (none, false), (none, false),
           (some 1, false), (some 0, false), (some 0, true), (some 0, true)],
          some 0) := by rfl

/-- C5 (amended): in every `play` run from the initial state, at most one
of `team_wins` and `game_draw` is ever set — in the final state and in
every per-turn snapshot — and once `finished` is true the scheduler is
absorbing (`play_round` and `play_loop` change nothing).  However, the
original claim's remaining parts fail: `team_wins` can be rewritten when
both teams reach the timeout maximum within the same round, and a
mid-round disqualification leaves `finished` false until the round's
`check_finished`. -/
theorem winner_flags_mutex_and_finished_absorbing :
    (∀ (cfg : Config) (d : UnivDyn) (rounds : List (List TurnInput))
        (st' : SchedState),
      play cfg (init_state d) rounds = some st' →
      (st'.gs.team_wins = none ∨ st'.gs.game_draw = none) ∧
      ∀ g ∈ st'.observations, g.team_wins = none ∨ g.game_draw = none) ∧
    (∀ (cfg : Config) (st : SchedState) (inputs : List TurnInput)
        (rounds : List (List TurnInput)), st.gs.finished = true →
      play_round cfg st inputs = some st ∧ play_loop cfg st rounds = some st) := by
  constructor
  · intro cfg d rounds st' hrun
    unfold play at hrun
    rcases hpl : play_loop cfg (init_state d) rounds with _ | st1
    · rw [hpl] at hrun; cases hrun
    · rw [hpl] at hrun
      rw [Option.bind_eq_bind, Option.some_bind] at hrun
      injection hrun with hrun
      rw [← hrun]
      have hinit_m : gs_mutex (init_state d).gs := Or.inl rfl
      have hinit_o : ∀ g ∈ (init_state d).observations, gs_mutex g := by
        intro g hg; cases hg
      have hloop := play_loop_mutex cfg rounds _ _ hpl hinit_m hinit_o
      refine ⟨hloop.1, ?_⟩
      intro g hg
      simp only [update_viewers] at hg
      rcases List.mem_append.mp hg with hg | hg
      · exact hloop.2 g hg
      · rw [List.mem_singleton.mp hg]; exact hloop.1
  · intro cfg st inputs rounds hf
    constructor
    · unfold play_round; rw [if_pos hf]
    · cases rounds with
      | nil => rw [play_loop]
      | cons r rs => rw [play_loop, if_pos hf]

/-! ## C9: counting observer notifications -/

theorem timeout_recovery_len (cfg : Config)
    (hwf : ∀ d i mv r, cfg.move_bot d i mv = some r → r.1.bots.length = d.bots.length)
    (st : SchedState) (bot : Bot) (k : Nat) (st' : SchedState)
    (h : timeout_recovery cfg st bot k = some st') :
    st'.dyn.bots.length = st.dyn.bots.length := by
  unfold timeout_recovery at h
  rcases hfb : fallback_moves (cfg.legal_moves bot.current_pos) with _ | moves
  · rw [hfb] at h; cases h
  · rw [hfb] at h
    dsimp only at h
    rcases hmb : cfg.move_bot st.dyn bot.index (choice moves k stop) with _ | ⟨d', diff⟩
    · rw [hmb] at h; cases h
    · rw [hmb] at h
      injection h with h
      rw [← h]
      exact hwf _ _ _ _ hmb

theorem _play_bot_len_turn (cfg : Config)
    (hwf : ∀ d i mv r, cfg.move_bot d i mv = some r → r.1.bots.length = d.bots.length)
    (st : SchedState) (i : Nat) (inp : TurnInput) (st' : SchedState)
    (hi : i < st.dyn.bots.length)
    (h : _play_bot cfg st i inp = some st') :
    st'.dyn.bots.length = st.dyn.bots.length ∧
    st'.turnCount = st.turnCount + 1 := by
  unfold _play_bot at h
  have hbs : ∃ bot, st.dyn.bots.get? i = some bot := by
    rcases hg : st.dyn.bots.get? i with _ | bot
    · rw [List.get?_eq_none] at hg; omega
    · exact ⟨bot, rfl⟩
  obtain ⟨bot, hb⟩ := hbs
  rw [hb] at h
  dsimp only at h
  obtain ⟨res, k, e⟩ := inp
  cases res with
  | disconnected =>
    injection h with h
    rw [← h]
    exact ⟨rfl, rfl⟩
  | timeout =>
    have h1 := timeout_recovery_len cfg hwf _ bot k st' h
    have h2 := timeout_recovery_facts cfg _ bot k st' h
    exact ⟨h1, h2.2.1⟩
  | success mv =>
    dsimp only at h
    rcases hmb : cfg.move_bot st.dyn bot.index mv with _ | ⟨d', diff⟩
    · rw [hmb] at h
      have h1 := timeout_recovery_len cfg hwf _ bot k st' h
      have h2 := timeout_recovery_facts cfg _ bot k st' h
      exact ⟨h1, h2.2.1⟩
    · rw [hmb] at h
      injection h with h
      rw [← h]
      exact ⟨hwf _ _ _ _ hmb, rfl⟩

theorem play_bots_go_count (cfg : Config)
    (hwf : ∀ d i mv r, cfg.move_bot d i mv = some r → r.1.bots.length = d.bots.length) :
    ∀ (l : List (Nat × TurnInput)) (st st' : SchedState),
      (∀ p ∈ l, p.1 < st.dyn.bots.length) →
      play_bots_go cfg st l = some st' →
      st'.turnCount = st.turnCount + l.length ∧
      st'.observations.length = st.observations.length + l.length ∧
      st'.dyn.bots.length = st.dyn.bots.length ∧
      st'.gs.finished = st.gs.finished := by
  intro l
  induction l with
  | nil =>
    intro st st' _ h
    rw [play_bots_go] at h
    injection h with h
    rw [← h]
    exact ⟨rfl, rfl, rfl, rfl⟩
  | cons p rest ih =>
    obtain ⟨i, inp⟩ := p
    intro st st' hidx h
    rw [play_bots_go] at h
    rcases hpb : _play_bot cfg st i inp with _ | st1
    · rw [hpb] at h; cases h
    · rw [hpb] at h
      rw [Option.bind_eq_bind, Option.some_bind] at h
      have hlt := _play_bot_len_turn cfg hwf st i inp st1
        (hidx (i, inp) (List.mem_cons_self _ _)) hpb
      have hfacts := _play_bot_facts cfg st i inp st1 hpb
      set u := update_viewers
        { st1 with gs := { st1.gs with
            running_time := st1.gs.running_time + inp.elapsed } } with hu
      have e_tc : u.turnCount = st1.turnCount := rfl
      have e_obs : u.observations.length = st1.observations.length + 1 := by
        rw [hu]; simp [update_viewers]
      have e_dyn : u.dyn = st1.dyn := rfl
      have e_fin : u.gs.finished = st1.gs.finished := rfl
      have hidx' : ∀ p ∈ rest, p.1 < u.dyn.bots.length := by
        intro p hp
        have hx := hidx p (List.mem_cons_of_mem _ hp)
        rw [e_dyn, hlt.1]
        exact hx
      have hrest := ih u st' hidx' h
      have e_obs_st : st1.observations.length = st.observations.length := by
        rw [hfacts.1]
      refine ⟨?_, ?_, ?_, ?_⟩
      · have := hrest.1
        rw [e_tc, hlt.2] at this
        simp only [List.length_cons]
        omega
      · have := hrest.2.1
        rw [e_obs, e_obs_st] at this
        simp only [List.length_cons]
        omega
      · have := hrest.2.2.1
        rw [e_dyn, hlt.1] at this
        exact this
      · have := hrest.2.2.2
        rw [e_fin, hfacts.2.2.2] at this
        exact this

theorem play_round_count (cfg : Config)
    (hwf : ∀ d i mv r, cfg.move_bot d i mv = some r → r.1.bots.length = d.bots.length)
    (st : SchedState) (inputs : List TurnInput) (st' : SchedState)
    (h : play_round cfg st inputs = some st') (hnf : st.gs.finished = false) :
    st'.observations.length + st.turnCount =
      st.observations.length + st'.turnCount +
        (if st'.gs.finished = true then 1 else 0) := by
  unfold play_round at h
  rw [if_neg (by rw [hnf]; exact Bool.false_ne_true)] at h
  dsimp only at h
  set st1 := prepare_next_round cfg st with hst1
  have hp := prepare_next_round_facts cfg st
  have e_obs1 : st1.observations = st.observations := by rw [hst1, hp.2.1]
  have e_tc1 : st1.turnCount = st.turnCount := by rw [hst1, hp.2.2.1]
  by_cases h1 : st1.gs.finished = true
  · rw [if_pos h1, if_pos h1] at h
    injection h with h
    rw [← h]
    have e1 : (update_viewers st1).observations.length =
        st.observations.length + 1 := by
      simp [update_viewers, e_obs1]
    have e2 : (update_viewers st1).turnCount = st.turnCount := by
      simp [update_viewers, e_tc1]
    have e3 : (update_viewers st1).gs.finished = true := h1
    rw [e1, e2, if_pos e3]
    omega
  · rw [if_neg h1] at h
    set st2 := check_winner (check_finished cfg st1) with hst2
    have hcf := check_finished_facts cfg st1
    have hcw := check_winner_facts (check_finished cfg st1)
    have e_obs2 : st2.observations = st.observations := by
      rw [hst2, hcw.2.1, hcf.2.1, e_obs1]
    have e_tc2 : st2.turnCount = st.turnCount := by
      rw [hst2, hcw.2.2.1, hcf.2.2.1, e_tc1]
    by_cases h2 : st2.gs.finished = true
    · rw [if_pos h2] at h
      injection h with h
      rw [← h]
      have e1 : (update_viewers st2).observations.length =
          st.observations.length + 1 := by
        simp [update_viewers, e_obs2]
      have e2 : (update_viewers st2).turnCount = st.turnCount := by
        simp [update_viewers, e_tc2]
      have e3 : (update_viewers st2).gs.finished = true := h2
      rw [e1, e2, if_pos e3]
      omega
    · rw [if_neg h2] at h
      rcases hpb : play_bots cfg st2 inputs with _ | st3
      · rw [hpb] at h; cases h
      · rw [hpb] at h
        rw [Option.bind_eq_bind, Option.some_bind] at h
        rw [play_bots] at hpb
        have hidx : ∀ p ∈ (List.range st2.dyn.bots.length).zip inputs,
            p.1 < st2.dyn.bots.length := by
          intro p hp
          obtain ⟨a, b⟩ := p
          have := List.of_mem_zip hp
          exact List.mem_range.mp this.1
        have hcount := play_bots_go_count cfg hwf _ st2 st3 hidx hpb
        have hcf3 := check_finished_facts cfg st3
        have hcw3 := check_winner_facts (check_finished cfg st3)
        have e_obs4 : (check_winner (check_finished cfg st3)).observations =
            st3.observations := by rw [hcw3.2.1, hcf3.2.1]
        have e_tc4 : (check_winner (check_finished cfg st3)).turnCount =
            st3.turnCount := by rw [hcw3.2.2.1, hcf3.2.2.1]
        injection h with h
        rw [← h]
        have hobs3 : st3.observations.length = st.observations.length +
            ((List.range st2.dyn.bots.length).zip inputs).length := by
          rw [hcount.2.1, e_obs2]
        have htc3 : st3.turnCount = st.turnCount +
            ((List.range st2.dyn.bots.length).zip inputs).length := by
          rw [hcount.1, e_tc2]
        have e_obs4l : (check_winner (check_finished cfg st3)).observations.length =
            st3.observations.length := by rw [e_obs4]
        have e_uv_obs : (update_viewers (check_winner (check_finished cfg st3))).observations.length =
            st3.observations.length + 1 := by
          simp [update_viewers, e_obs4]
        have e_uv_tc : (update_viewers (check_winner (check_finished cfg st3))).turnCount =
            st3.turnCount := e_tc4
        by_cases h4 : (check_winner (check_finished cfg st3)).gs.finished = true
        · rw [if_pos h4]
          have h4' : (update_viewers (check_winner (check_finished cfg st3))).gs.finished =
              true := h4
          rw [if_pos h4']
          omega
        · rw [if_neg h4]
          rw [if_neg h4]
          omega

theorem play_loop_count (cfg : Config)
    (hwf : ∀ d i mv r, cfg.move_bot d i mv = some r → r.1.bots.length = d.bots.length) :
    ∀ (rounds : List (List TurnInput)) (st st' : SchedState),
      play_loop cfg st rounds = some st' →
      st.observations.length = st.turnCount +
        (if st.gs.finished = true then 1 else 0) →
      st'.observations.length = st'.turnCount +
        (if st'.gs.finished = true then 1 else 0) := by
  intro rounds
  induction rounds with
  | nil =>
    intro st st' h hinv
    rw [play_loop] at h
    injection h with h
    rw [← h]; exact hinv
  | cons r rs ih =>
    intro st st' h hinv
    rw [play_loop] at h
    split_ifs at h with hf
    · injection h with h; rw [← h]; exact hinv
    · rcases hpr : play_round cfg st r with _ | st1
      · rw [hpr] at h; cases h
      · rw [hpr] at h
        rw [Option.bind_eq_bind, Option.some_bind] at h
        have hnf : st.gs.finished = false := by
          rw [Bool.not_eq_true] at hf; exact hf
        have hcnt := play_round_count cfg hwf st r st1 hpr hnf
        rw [hnf] at hinv
        simp only [Bool.false_eq_true, if_false] at hinv
        refine ih _ _ h ?_
        by_cases h1 : st1.gs.finished = true
        · rw [if_pos h1] at hcnt ⊢
          omega
        · rw [if_neg h1] at hcnt ⊢
          omega

/-- C9 counterexample: a full two-bot, one-round match that ends in a
draw.  There are 2 bot turns but 4 `observe` notifications: one per bot
turn, one when the final `check_finished` detects the end of the match,
and one more from `play`'s closing `update_viewers` — so observers are
notified twice at match end, not once. -/
theorem observe_count_counterexample :
    (play cfg0 (init_state dyn0)
      [[ti (.success stop), ti (.success stop)],
       [ti (.success stop), ti (.success stop)]]).map
      (fun s => (s.gs.finished, s.turnCount, s.observations.length)) =
      some (true, 2, 4) ∧ (2 : Nat) + 1 ≠ 4 := ⟨rfl, by decide⟩

/-- C9 (amended): in every `play` run from the initial state that ends
with `finished = true`, the number of `observe` notifications is exactly
the number of bot turns plus two: one notification per `_play_bot`
execution, one when the round-boundary check detects the finish, and one
from `play`'s final `update_viewers`.  (`hwf` is the universe's guarantee
that moving a bot never changes the number of bots.) -/
theorem observe_once_per_turn_plus_two (cfg : Config) (d : UnivDyn)
    (rounds : List (List TurnInput)) (st' : SchedState)
    (hwf : ∀ dd i mv r, cfg.move_bot dd i mv = some r →
      r.1.bots.length = dd.bots.length)
    (hrun : play cfg (init_state d) rounds = some st')
    (hfin : st'.gs.finished = true) :
    st'.observations.length = st'.turnCount + 2 := by
  unfold play at hrun
  rcases hpl : play_loop cfg (init_state d) rounds with _ | st1
  · rw [hpl] at hrun; cases hrun
  · rw [hpl] at hrun
    rw [Option.bind_eq_bind, Option.some_bind] at hrun
    injection hrun with hrun
    have hfin1 : st1.gs.finished = true := by
      rw [← hrun] at hfin
      exact hfin
    have hinv := play_loop_count cfg hwf rounds _ _ hpl (by rfl)
    rw [hfin1, if_pos rfl] at hinv
    rw [← hrun]
    simp only [update_viewers, List.length_append, List.length_cons,
      List.length_nil]
    omega

/-! ## Witnesses: the theorems with hypotheses evaluated at concrete inputs -/

/-- A finished state with distinct scores, for exercising `check_winner`. -/
def stW : SchedState :=
  { dyn := { bots := [], teams := [⟨0, "a", 3⟩, ⟨1, "b", 1⟩], enemy_food := [1, 1] }
    gs := { initial_game_state with finished := true }
    appliedMoves := []
    observations := []
    turnCount := 0 }

/-- A noiser whose `a_star` always finds a two-cell path, for the visible
branch of the noise engine. -/
def testNoiser : UniverseNoiser :=
  { a_star := fun _ _ => some [(1, 1), (2, 2)]
    pos_within := fun p _ => [p]
    noise_radius := 5
    sight_distance := 5 }

/-- Witness for C3 at `stW`: team 0's strictly higher score wins. -/
theorem check_winner_spec_witness :
    (check_winner stW).gs.team_wins = some 0 ∧
    (check_winner stW).gs.game_draw = none :=
  ((check_winner_spec stW).2.2.1 rfl rfl rfl).1 (by decide)

/-- Witness for C1 (amended) at `stC1`: the fifth timeout sets
`team_wins = some 1`. -/
theorem fifth_timeout_disqualifies_witness :
    (_play_bot cfgT stC1 0 (ti .timeout)).map (fun s => s.gs.team_wins) =
      some (some 1) := by
  rcases hrun : _play_bot cfgT stC1 0 (ti .timeout) with _ | st'
  · have hs : (_play_bot cfgT stC1 0 (ti .timeout)).isSome = true := rfl
    rw [hrun] at hs; cases hs
  · have h := fifth_timeout_disqualifies cfgT stC1 0 (ti .timeout)
      ⟨0, 0, (1, 1), false⟩ st' rfl rfl (by decide) (by decide) hrun
    rw [Option.map_some', h.1]
    rfl

/-- Witness for C2 (amended): a disconnect of bot 0 sets
`team_wins = some 1`, applies no move and leaves `finished` false. -/
theorem disconnect_disqualifies_witness :
    (_play_bot cfgT (init_state dyn0) 0 (ti .disconnected)).map
      (fun s => (s.gs.team_wins, s.appliedMoves, s.gs.finished)) =
      some (some 1, [], false) := by
  obtain ⟨st', hrun, h1, h2, _, h4, _⟩ := disconnect_disqualifies cfgT (init_state dyn0) 0
    (ti .disconnected) ⟨0, 0, (1, 1), false⟩ rfl rfl
  rw [hrun, Option.map_some', h1, h2, h4]
  rfl

/-- Witness for C5 (amended), absorbing part: a finished state is a fixed
point of `play_round`. -/
theorem winner_flags_mutex_witness :
    stW.gs.finished = true ∧ play_round cfg0 stW [] = some stW :=
  ⟨rfl, (winner_flags_mutex_and_finished_absorbing.2 cfg0 stW [] [] rfl).1⟩

/-- Witness for C6 at the concrete one-round draw match: the final
`round_index` is `some 1` and the theorem bounds it by `game_time = 1`. -/
theorem round_index_monotone_bounded_witness :
    (1 : Nat) ≤ cfg0.game_time := by
  rcases hrun : play cfg0 (init_state dyn0)
      [[ti (.success stop), ti (.success stop)],
       [ti (.success stop), ti (.success stop)]] with _ | st'
  · have hs : (play cfg0 (init_state dyn0)
        [[ti (.success stop), ti (.success stop)],
         [ti (.success stop), ti (.success stop)]]).isSome = true := rfl
    rw [hrun] at hs; cases hs
  · have h := round_index_monotone_bounded cfg0 dyn0 _ st' hrun
    have h2 := congrArg (fun o => o.map (fun s => s.gs.round_index)) hrun
    have h3 : (some (some 1) : Option (Option Nat)) = some st'.gs.round_index := h2
    injection h3 with h3
    exact h.2.1 1 h3.symm

/-- Witness for C7, visible branch: the enemy within `sight_distance`
keeps its true position and unset `noisy` flag. -/
theorem uniform_noise_spec_witness :
    (uniform_noise testNoiser dyn0 0 (fun _ => 0)).bots.get? 1 =
      some ⟨1, 1, (2, 2), false⟩ :=
  (uniform_noise_spec testNoiser dyn0 0 1 (fun _ => 0)
    ⟨0, 0, (1, 1), false⟩ ⟨1, 1, (2, 2), false⟩ rfl rfl (by decide)).1
    [(1, 1), (2, 2)] rfl (by decide)

/-- Witness for C8: the recovery path applies exactly one fallback move. -/
theorem fallback_move_legal_witness :
    (timeout_recovery cfgT (init_state dyn0) ⟨0, 0, (1, 1), false⟩ 0).map
      (fun s => s.appliedMoves.length) = some 1 := by
  rcases hrun : timeout_recovery cfgT (init_state dyn0) ⟨0, 0, (1, 1), false⟩ 0 with _ | st'
  · have hs : (timeout_recovery cfgT (init_state dyn0)
        ⟨0, 0, (1, 1), false⟩ 0).isSome = true := rfl
    rw [hrun] at hs; cases hs
  · obtain ⟨mv, hmv, _, _⟩ := fallback_move_legal cfgT (init_state dyn0)
      ⟨0, 0, (1, 1), false⟩ 0 st' (by decide) (by decide) hrun
    rw [Option.map_some', hmv]
    rfl

/-- Witness for C9 (amended) at the concrete one-round draw match:
4 notifications = 2 bot turns + 2. -/
theorem observe_once_per_turn_plus_two_witness :
    (play cfg0 (init_state dyn0)
      [[ti (.success stop), ti (.success stop)],
       [ti (.success stop), ti (.success stop)]]).map
      (fun s => (s.observations.length, s.turnCount + 2)) = some (4, 4) := by
  rcases hrun : play cfg0 (init_state dyn0)
      [[ti (.success stop), ti (.success stop)],
       [ti (.success stop), ti (.success stop)]] with _ | st'
  · have hs : (play cfg0 (init_state dyn0)
        [[ti (.success stop), ti (.success stop)],
         [ti (.success stop), ti (.success stop)]]).isSome = true := rfl
    rw [hrun] at hs; cases hs
  · have hfin : st'.gs.finished = true := by
      have h2 := congrArg (fun o => o.map (fun s => s.gs.finished)) hrun
      have h3 : (some true : Option Bool) = some st'.gs.finished := h2
      injection h3 with h3
      exact h3.symm
    have htc : st'.turnCount = 2 := by
      have h2 := congrArg (fun o => o.map (fun s => s.turnCount)) hrun
      have h3 : (some 2 : Option Nat) = some st'.turnCount := h2
      injection h3 with h3
      exact h3.symm
    have h := observe_once_per_turn_plus_two cfg0 dyn0 _ st'
      (by intro dd i mv r hh; cases hh; rfl) hrun hfin
    rw [Option.map_some', h, htc]

/-- Witness for C10: with "stand still" not in the legal moves, the
recovery path crashes (returns `none`). -/
theorem recovery_requires_stop_witness :
    _play_bot cfgNS (init_state dyn0) 0 (ti .timeout) = none :=
  (recovery_requires_stop cfgNS (init_state dyn0) 0 (ti .timeout)
    ⟨0, 0, (1, 1), false⟩ rfl rfl).1 (by decide)

end Pelita
